import Mathlib

/-
  Verification development for the document-reconciliation engine:
  a shallow embedding of the code extractor, consumption registry,
  page-consumption engine, order-fulfillment orchestrator, attribute
  splitter and purge sweep, together with theorems settling the
  specification claims.

  Page text is modelled as `String` (a list of characters); machine
  regular expressions are embedded as deterministic character-list
  parsers that realise exactly the patterns used by the code
  (the patterns involved are ambiguity-free: their quantifiers range
  over disjoint character classes or have fixed counts, so a
  deterministic parser computes the same match).  Whitespace is the
  ASCII whitespace class; lowercasing covers ASCII and Cyrillic
  letters, the alphabets occurring in the code's patterns and data.
-/

set_option maxRecDepth 4000

-- ==========================================================
-- Character classes (embedding the regex vocabulary)
-- ==========================================================

/-- ASCII whitespace, the `\s` class on the texts involved. -/
def isWsChar (c : Char) : Bool :=
  c = ' ' || c = '\t' || c = '\n' || c = '\r' || c = '\x0b' || c = '\x0c'

/-- `\d`. -/
def isDigitChar (c : Char) : Bool :=
  '0' ≤ c && c ≤ '9'

/-- The class `[!-~]` (printable ASCII, no space), `\x21`–`\x7E`. -/
def isPrintAscii (c : Char) : Bool :=
  '!' ≤ c && c ≤ '~'

/-- Cyrillic letters (U+0410–U+044F plus Ё/ё). -/
def isCyrChar (c : Char) : Bool :=
  ('А' ≤ c && c ≤ 'я') || c = 'Ё' || c = 'ё'

/-- The word class `\w` on the alphabets in use: ASCII alphanumerics,
underscore, Cyrillic letters. -/
def isWordChar (c : Char) : Bool :=
  c.isAlphanum || c = '_' || isCyrChar c

/-- Lowercasing (Python `str.lower`) on ASCII and Cyrillic. -/
def lowerChar (c : Char) : Char :=
  if 'A' ≤ c ∧ c ≤ 'Z' then Char.ofNat (c.toNat + 32)
  else if 'А' ≤ c ∧ c ≤ 'Я' then Char.ofNat (c.toNat + 32)
  else if c = 'Ё' then 'ё'
  else c

-- ==========================================================
-- Small string utilities from `core/pdf_rw.py`
-- ==========================================================

/-- `re.sub(r"\s+", "", s)`: delete every whitespace character. -/
def stripWsChars (cs : List Char) : List Char :=
  cs.filter (fun c => !isWsChar c)

def lowerChars (cs : List Char) : List Char :=
  cs.map lowerChar

/-- `_strip_all_ws`: delete all whitespace, then lowercase. -/
def stripAllWs (cs : List Char) : List Char :=
  lowerChars (stripWsChars cs)

/-- Python `str.strip()`. -/
def trimChars (cs : List Char) : List Char :=
  ((cs.dropWhile isWsChar).reverse.dropWhile isWsChar).reverse

/-- `str.strip()` packaged on `String`. -/
def trimS (s : String) : String :=
  ⟨trimChars s.data⟩

/-- Python `str.splitlines()` on texts whose line breaks are
`\n`, `\r\n` or `\r` (a trailing break produces no final element). -/
def splitLinesAux : List Char → List Char → List (List Char)
  | [], cur => if cur.isEmpty then [] else [cur.reverse]
  | '\r' :: '\n' :: rest, cur => cur.reverse :: splitLinesAux rest []
  | '\n' :: rest, cur => cur.reverse :: splitLinesAux rest []
  | '\r' :: rest, cur => cur.reverse :: splitLinesAux rest []
  | c :: rest, cur => splitLinesAux rest (c :: cur)

def splitLines (cs : List Char) : List (List Char) :=
  splitLinesAux cs []

/-- Containment of `needle` as a contiguous substring of `hay`
(Python `in` on strings). -/
def containsSub (needle hay : List Char) : Bool :=
  hay.tails.any (fun t => needle.isPrefixOf t)

-- ==========================================================
-- Deterministic parsers for the GS1 patterns (`core/patterns.py`)
-- ==========================================================

/-- Skip `\s*`. -/
def dropWs (cs : List Char) : List Char :=
  cs.dropWhile isWsChar

/-- Match one literal character. -/
def parseLit (c : Char) : List Char → Option (List Char)
  | x :: rest => if x = c then some rest else none
  | [] => none

/-- Match exactly `n` digits (`\d{n}`). -/
def takeDigits : Nat → List Char → Option (List Char)
  | 0, cs => some cs
  | n + 1, c :: rest => if isDigitChar c then takeDigits n rest else none
  | _ + 1, [] => none

/-- `RE_GS1_PAREN_ONELINE` = `\(\s*01\s*\)\s*\d{14}\s*\(\s*21\s*\)\s*[!-~]{4,}`
attempted at the head of `cs`; returns the remainder after the (greedy)
match. -/
def gs1ParenAt (cs : List Char) : Option (List Char) := do
  let r ← parseLit '(' cs
  let r := dropWs r
  let r ← parseLit '0' r
  let r ← parseLit '1' r
  let r := dropWs r
  let r ← parseLit ')' r
  let r := dropWs r
  let r ← takeDigits 14 r
  let r := dropWs r
  let r ← parseLit '(' r
  let r := dropWs r
  let r ← parseLit '2' r
  let r ← parseLit '1' r
  let r := dropWs r
  let r ← parseLit ')' r
  let r := dropWs r
  let run := r.takeWhile isPrintAscii
  if run.length ≥ 4 then some (r.drop run.length) else none

/-- `RE_GS1_PAREN_ONELINE.search(text)`: leftmost match; returns the
matched span `m.group(0)`. -/
def searchParenOneline : List Char → Option (List Char)
  | [] => none
  | c :: rest =>
    match gs1ParenAt (c :: rest) with
    | some rem => some ((c :: rest).take ((c :: rest).length - rem.length))
    | none => searchParenOneline rest

/-- `RE_GS1_NOPAREN_HEADLINE` = `^\s*01\s*\d{14}\s*21\s*$` (full-line form). -/
def headlineMatchAux (cs : List Char) : Option (List Char) := do
  let r := dropWs cs
  let r ← parseLit '0' r
  let r ← parseLit '1' r
  let r := dropWs r
  let r ← takeDigits 14 r
  let r := dropWs r
  let r ← parseLit '2' r
  let r ← parseLit '1' r
  pure (dropWs r)

def headlineMatch (cs : List Char) : Bool :=
  match headlineMatchAux cs with
  | some [] => true
  | _ => false

/-- One attempt of `(?:\(\s*21\s*\)|21)\s*([!-~]{4,})` at the head of `cs`:
on success, the number of characters consumed before group 1 starts and
the group-1 run. -/
def same21At (cs : List Char) : Option (Nat × List Char) :=
  let afterHead : Option (List Char) :=
    (do
      let r ← parseLit '(' cs
      let r := dropWs r
      let r ← parseLit '2' r
      let r ← parseLit '1' r
      let r := dropWs r
      parseLit ')' r)
    <|>
    (do
      let r ← parseLit '2' cs
      parseLit '1' r)
  match afterHead with
  | none => none
  | some r =>
    let r2 := dropWs r
    let run := r2.takeWhile isPrintAscii
    if run.length ≥ 4 then some (cs.length - r2.length, run) else none

/-- `re.search` for the pattern above: leftmost position wins; returns
(`ln[:m.start(1)]`, `m.group(1)`). `pre` holds the consumed part reversed. -/
def findSame21 : List Char → List Char → Option (List Char × List Char)
  | _, [] => none
  | pre, c :: rest =>
    match same21At (c :: rest) with
    | some (hlen, run) => some (pre.reverse ++ (c :: rest).take hlen, run)
    | none => findSame21 (c :: pre) rest

/-- `RE_ASCII_PREFIX_LINE` = `^\s*([!-~]{4,})`; returns group 1. -/
def asciiHeadLine (cs : List Char) : Option (List Char) :=
  let r := dropWs cs
  let run := r.takeWhile isPrintAscii
  if run.length ≥ 4 then some run else none

/-- `RE_ASCII_PREFIX` = `^([\x21-\x7E]{4,})` (no leading-space skip);
embeds `_ascii_prefix`. -/
def asciiHead (cs : List Char) : Option (List Char) :=
  let run := cs.takeWhile isPrintAscii
  if run.length ≥ 4 then some run else none

/-- `RE_GTIN` = `^0\d{13,}$` as used with `.match` on a full line. -/
def gtinMatch (cs : List Char) : Bool :=
  match cs with
  | '0' :: rest => rest.length ≥ 13 && rest.all isDigitChar
  | _ => false

-- ==========================================================
-- `_extract_code_from_text` (`core/pdf_rw.py`, the extractor used by the
-- consumption engine and the purge sweep)
-- ==========================================================

/-- Branch B of `_extract_code_from_text`: scan the non-empty stripped
lines; at a head line `01<14>21`, try the same-line serial and then the
next `max_lookahead = 5` lines for an ASCII serial; otherwise keep
scanning further lines. -/
def extractLoopB : List (List Char) → Option (List Char)
  | [] => none
  | ln :: rest =>
    if headlineMatch ln then
      match findSame21 [] ln with
      | some (h, t) => some (stripWsChars h ++ stripWsChars t)
      | none =>
        match (rest.take 5).findSome? asciiHeadLine with
        | some run => some (stripWsChars ln ++ stripWsChars run)
        | none => extractLoopB rest
    else extractLoopB rest

/-- `_extract_code_from_text`: A) parenthesised one-line GS1 pair,
whitespace-stripped; B) bare head line plus nearby serial; else none. -/
def _extract_code_from_text (text : String) : Option String :=
  if text = "" then none
  else
    match searchParenOneline text.data with
    | some span => some ⟨stripWsChars span⟩
    | none =>
      let lines := ((splitLines text.data).map trimChars).filter (fun l => !l.isEmpty)
      (extractLoopB lines).map (fun l => (⟨l⟩ : String))

/-- First loop of `_extract_code_from_lines`: once a GTIN line was seen,
the first later line with a printable-ASCII head of length ≥ 4 yields
the code. -/
def fromLinesLoop1 : List (List Char) → Bool → Option (List Char)
  | [], _ => none
  | ln :: rest, after =>
    if gtinMatch ln then fromLinesLoop1 rest true
    else if after then
      match asciiHead ln with
      | some p => some p
      | none => fromLinesLoop1 rest true
    else fromLinesLoop1 rest false

/-- `_extract_code_from_lines` (`core/pdf_rw.py`): GTIN-then-serial scan
with a fallback to the first line holding a printable-ASCII head.  This
helper has no caller on the consumption or purge paths. -/
def _extract_code_from_lines (lines : List String) : Option String :=
  match fromLinesLoop1 (lines.map String.data) false with
  | some p => some ⟨p⟩
  | none => ((lines.map String.data).findSome? asciiHead).map (fun l => (⟨l⟩ : String))

-- ==========================================================
-- Consumption registry (`services/printed_codes.py`)
-- ==========================================================

/-- The `printed_codes` table: a set of codes, kept as a duplicate-free
list (the `code` column is the primary key). -/
abbrev Registry := List String

/-- `register_code_if_new`: the atomic
`INSERT .. ON CONFLICT ("code") DO NOTHING RETURNING code` — inserts the
code and returns whether this call inserted it (true iff it was absent). -/
def register_code_if_new (reg : Registry) (code : String) : Bool × Registry :=
  if code ∈ reg then (false, reg) else (true, code :: reg)

/-- `get_all_codes`: full snapshot of the registered codes. -/
def get_all_codes (reg : Registry) : Registry := reg

-- ==========================================================
-- Page-consumption engine (`cut_first_n_pages_unique`, `core/pdf_rw.py`)
-- ==========================================================

/-- A stored PDF: its file name and the extractable text of each page
(in page order). -/
structure PdfDoc where
  name : String
  pages : List String
deriving DecidableEq, Repr

/-- The page scan of `cut_first_n_pages_unique`: indices run from `i`;
stop as soon as `unique_taken >= n`; a page with no code is skipped;
a page with a new code goes to the head bundle and is marked for
deletion; a duplicate is only marked for deletion.
Returns (head pages as (index, text), indices to delete, unique_taken,
registry). -/
def cutLoop (n : Nat) :
    List String → Nat → Nat → Registry →
    (List (Nat × String) × List Nat × Nat × Registry)
  | [], _, taken, reg => ([], [], taken, reg)
  | t :: rest, i, taken, reg =>
    if n ≤ taken then ([], [], taken, reg)
    else
      match _extract_code_from_text t with
      | none => cutLoop n rest (i + 1) taken reg
      | some code =>
        let p := register_code_if_new reg code
        if p.1 then
          let r := cutLoop n rest (i + 1) (taken + 1) p.2
          ((i, t) :: r.1, i :: r.2.1, r.2.2)
        else
          let r := cutLoop n rest (i + 1) taken p.2
          (r.1, i :: r.2.1, r.2.2)

/-- Result of one consumption run over one document. -/
structure CutOutcome where
  /-- the cut head bundle (`__head_` file): page indices with their texts;
  `none` when no unique page was taken and no head file is written -/
  head : Option (List (Nat × String))
  /-- `max(0, n - unique_taken)` -/
  shortage : Nat
  /-- the pages remaining in the source after the rewrite, with their
  original indices -/
  keep : List (Nat × String)
  /-- the source file was deleted (`src.unlink()`) -/
  srcDeleted : Bool
  /-- the registry after the run -/
  reg : Registry
deriving DecidableEq, Repr

/-- `cut_first_n_pages_unique`: consume up to `n` pages carrying new
codes; duplicates are removed from the source as well; the source is
rewritten to the unmarked pages (deleted when none remain).  The source
takes `n` as a machine integer and returns `(None, 0)` for `n <= 0`;
here `n : Nat` and the guard is `n = 0`.  `shortage` is the Python
`max(0, n - unique_taken)`, which truncated `Nat` subtraction computes. -/
def cut_first_n_pages_unique (reg : Registry) (pages : List String) (n : Nat) :
    CutOutcome :=
  if n = 0 then
    ⟨none, 0, pages.enum, false, reg⟩
  else
    let r := cutLoop n pages 0 0 reg
    let del := r.2.1
    let taken := r.2.2.1
    let reg' := r.2.2.2
    let keep := pages.enum.filter (fun p => decide (p.1 ∉ del))
    if taken = 0 then
      if del.isEmpty then ⟨none, n, pages.enum, false, reg'⟩
      else ⟨none, n - taken, keep, keep.isEmpty, reg'⟩
    else
      ⟨some r.1, n - taken, keep, keep.isEmpty, reg'⟩

/-- Pages of the head bundle, zero when no bundle was produced
(`new_pages_obtained`). -/
def bundleCount (o : CutOutcome) : Nat :=
  (o.head.getD []).length

-- ==========================================================
-- Document search (`find_pdf_by_article_size`, `core/pdf_rw.py`)
-- ==========================================================

/-- `read_pdf`: the page texts, each stripped, the empty ones dropped,
joined with a newline. -/
def read_pdf (doc : PdfDoc) : List Char :=
  List.intercalate ['\n']
    (((doc.pages.filter (fun t => t ≠ "")).map (fun t => trimChars t.data)))

/-- Case-insensitive literal match of `s` at the head of `cs`;
returns the remainder. -/
def matchCI : List Char → List Char → Option (List Char)
  | [], cs => some cs
  | _ :: _, [] => none
  | p :: ps, c :: cs => if lowerChar c = lowerChar p then matchCI ps cs else none

/-- Word boundary `\b` right after a match whose last character is
`last`, with `rest` the text that follows. -/
def boundaryAfter (last : Char) (rest : List Char) : Bool :=
  isWordChar last != (match rest with | [] => false | c :: _ => isWordChar c)

/-- One attempt, at the head of `cs`, of the compiled size pattern
`(?:размер:\s*)?<s>\b` (IGNORECASE): the optional label branch is tried
first, falling back to the bare `s` at the same position. -/
def sizeMatchAt (s : List Char) (last : Char) (cs : List Char) : Bool :=
  (match matchCI "размер:".data cs with
   | some r =>
     match matchCI s (dropWs r) with
     | some r2 => boundaryAfter last r2
     | none => false
   | none => false)
  ||
  (match matchCI s cs with
   | some r2 => boundaryAfter last r2
   | none => false)

/-- `size_regex.search(text)` for the pattern above. -/
def sizeSearch (s : List Char) (text : List Char) : Bool :=
  match s.getLast? with
  | none => false
  | some last =>
    let rec go : List Char → Bool
      | [] => sizeMatchAt s last []
      | c :: rest => sizeMatchAt s last (c :: rest) || go rest
    go text

/-- The per-document test inside the `find_pdf_by_article_size` loop:
the whitespace-stripped article occurs in the whitespace-stripped text,
and the size pattern matches the raw text or, failing that, the
flattened text. -/
def docMatch (a_no_ws s : List Char) (doc : PdfDoc) : Bool :=
  let raw := read_pdf doc
  let text_no_ws := stripAllWs raw
  containsSub a_no_ws text_no_ws &&
    (sizeSearch s raw || sizeSearch s text_no_ws)

/-- `find_pdf_by_article_size`: first document (in directory-listing
order) containing both the article and the size; `None` on blank
inputs. -/
def find_pdf_by_article_size (article size : String) (dir : List PdfDoc) :
    Option String :=
  let a_no_ws := stripAllWs article.data
  let s := trimChars size.data
  if a_no_ws.isEmpty || s.isEmpty then none
  else (dir.find? (fun d => docMatch a_no_ws s d)).map (fun d => d.name)

-- ==========================================================
-- Order-fulfillment orchestrator (`build_pdf_from_dataframe`)
-- ==========================================================

/-- One normalized order line of the dataframe: the article and size
cells and the result of `int(...)` on the quantity cell (`none` when the
conversion raises). -/
structure Row where
  article : String
  size : String
  qty : Option Int
deriving DecidableEq, Repr

/-- Opening a stored document by the file name `find` returned. -/
def dirLookup (dir : List PdfDoc) (name : String) : Option PdfDoc :=
  dir.find? (fun d => d.name = name)

/-- The directory after one consumption run on the document called
`name`: the file is deleted when no page remains, otherwise atomically
replaced by its kept pages. -/
def updateDirAfterCut (dir : List PdfDoc) (name : String) (r : CutOutcome) :
    List PdfDoc :=
  if r.srcDeleted then dir.filter (fun d => d.name ≠ name)
  else dir.map (fun d => if d.name = name then ⟨d.name, r.keep.map (fun p => p.2)⟩ else d)

/-- The row loop of `build_pdf_from_dataframe`.  Shortage records are
kept structured as (article, size, amount); `_append_shortage` renders
one such record per line.  Returns (shortages, cut bundles, directory,
registry). -/
def buildLoop :
    List Row → List PdfDoc → Registry →
    List (String × String × Int) → List (List String) →
    (List (String × String × Int) × List (List String) × List PdfDoc × Registry)
  | [], dir, reg, sh, parts => (sh, parts, dir, reg)
  | row :: rest, dir, reg, sh, parts =>
    let article := trimS row.article
    let size := trimS row.size
    match row.qty with
    | none => buildLoop rest dir reg sh parts
    | some q =>
      if q ≤ 0 then buildLoop rest dir reg sh parts
      else
        match find_pdf_by_article_size article size dir with
        | none => buildLoop rest dir reg (sh ++ [(article, size, q)]) parts
        | some name =>
          match dirLookup dir name with
          | none =>
            -- the per-row `except` branch: any failure counts as a full
            -- shortage (unreachable: `find` returned a listed name)
            buildLoop rest dir reg (sh ++ [(article, size, q)]) parts
          | some doc =>
            let r := cut_first_n_pages_unique reg doc.pages q.toNat
            let dir' := updateDirAfterCut dir name r
            let sh' := if 0 < r.shortage then sh ++ [(article, size, (r.shortage : Int))] else sh
            let parts' :=
              match r.head with
              | some hd => if 0 < hd.length then parts ++ [hd.map (fun p => p.2)] else parts
              | none => parts
            buildLoop rest dir' r.reg sh' parts'

/-- Result of one fulfillment run. -/
structure BuildOut where
  /-- pages of the merged result PDF (`merge_pdfs` concatenates the cut
  bundles), `none` when no bundle was produced -/
  artifact : Option (List String)
  shortages : List (String × String × Int)
  dir : List PdfDoc
  reg : Registry
deriving DecidableEq, Repr

/-- `build_pdf_from_dataframe` over normalized rows. -/
def build_pdf_from_dataframe (rows : List Row) (dir : List PdfDoc)
    (reg : Registry) : BuildOut :=
  let r := buildLoop rows dir reg [] []
  { artifact := if r.2.1.isEmpty then none else some r.2.1.flatten
    shortages := r.1
    dir := r.2.2.1
    reg := r.2.2.2 }

-- ==========================================================
-- The orchestrator the spec describes (for claim C5 only)
-- ==========================================================

/-- Lexicographic code-point comparison of names (the order `sorted`
uses on strings). -/
def strLtChars : List Char → List Char → Bool
  | [], [] => false
  | [], _ :: _ => true
  | _ :: _, [] => false
  | a :: as, b :: bs =>
    if a.toNat < b.toNat then true
    else if b.toNat < a.toNat then false
    else strLtChars as bs

def nameLe (a b : String) : Bool :=
  !strLtChars b.data a.data

/-- Insertion sort of document names (ascending). -/
def insertName (n : String) : List String → List String
  | [] => [n]
  | m :: rest => if nameLe n m then n :: m :: rest else m :: insertName n rest

def sortNames : List String → List String
  | [] => []
  | n :: rest => insertName n (sortNames rest)

/-- Modelled from the spec: the spec's §4.5 orchestrator locates ALL
candidate documents matching article and size, sorted by name, and
"iterates candidates in order, calling the Consumption Engine with the
remaining unmet quantity against each, decrementing remaining by pages
actually obtained, until remaining reaches zero or candidates are
exhausted".  Returns the leftover remaining quantity (the line's
shortage).  Written only to be compared against the source-derived
orchestrator above, which uses the first match only. -/
def specFulfillLine (reg : Registry) (dir : List PdfDoc)
    (article size : String) (qty : Nat) : Nat :=
  let a_no_ws := stripAllWs article.data
  let s := trimChars size.data
  let cands := sortNames ((dir.filter (fun d => docMatch a_no_ws s d)).map (fun d => d.name))
  let rec go : List String → List PdfDoc → Registry → Nat → Nat
    | [], _, _, remaining => remaining
    | name :: rest, d, rg, remaining =>
      if remaining = 0 then 0
      else
        match dirLookup d name with
        | none => go rest d rg remaining
        | some doc =>
          let r := cut_first_n_pages_unique rg doc.pages remaining
          go rest (updateDirAfterCut d name r) r.reg (remaining - bundleCount r)
  go cands dir reg qty

-- ==========================================================
-- Purge sweep (`core/pdf_cleanup.py`)
-- ==========================================================

/-- `_is_tmp_name`: temporary/working files by naming convention. -/
def _is_tmp_name (name : String) : Bool :=
  let n := lowerChars name.data
  containsSub "__head_".data n || containsSub "__tail_".data n ||
    containsSub "tmp".data n

/-- One entry of the `details` log of the sweep (the failure entries of
the source belong to exception paths that the embedding has no way to
reach). -/
inductive PurgeDetail where
  | loaded (n : Nat)
  | emptyDeleted (name : String)
  | deletedAll (name : String)
  | modified (name : String) (deleted total : Nat)
deriving DecidableEq, Repr

/-- The `stats` dictionary of the sweep. -/
structure PurgeStats where
  files_scanned : Nat
  files_modified : Nat
  files_deleted : Nat
  pages_scanned : Nat
  pages_deleted : Nat
  details : List PurgeDetail
deriving DecidableEq, Repr

def PurgeStats.zero : PurgeStats := ⟨0, 0, 0, 0, 0, []⟩

/-- Combining the contributions of successive files (counter sums,
log lines in file order). -/
def PurgeStats.append (a b : PurgeStats) : PurgeStats :=
  ⟨a.files_scanned + b.files_scanned,
   a.files_modified + b.files_modified,
   a.files_deleted + b.files_deleted,
   a.pages_scanned + b.pages_scanned,
   a.pages_deleted + b.pages_deleted,
   a.details ++ b.details⟩

/-- `if code and code in all_codes`: the page is purged when its
extracted code is truthy and already registered. -/
def pageIsKnown (allCodes : Registry) (t : String) : Bool :=
  match _extract_code_from_text t with
  | some c => c ≠ "" && c ∈ allCodes
  | none => false

/-- The per-file body of the sweep loop (reached only for non-temporary
names): scan every page, drop the known ones; an empty file is deleted
outright; a file losing all pages is deleted; a file losing some pages
is atomically rewritten; a file losing none is left alone.  Returns the
file's contribution to `stats` and the surviving file, if any. -/
def purgeFile (allCodes : Registry) (d : PdfDoc) : PurgeStats × Option PdfDoc :=
  let total := d.pages.length
  if total = 0 then
    (⟨1, 0, 1, 0, 0, [.emptyDeleted d.name]⟩, none)
  else
    let keepPages := d.pages.filter (fun t => !pageIsKnown allCodes t)
    let deleted_here := total - keepPages.length
    if deleted_here = 0 then
      (⟨1, 0, 0, total, 0, []⟩, some d)
    else if keepPages.isEmpty then
      (⟨1, 0, 1, total, deleted_here, [.deletedAll d.name]⟩, none)
    else
      (⟨1, 1, 0, total, deleted_here, [.modified d.name deleted_here total]⟩,
       some ⟨d.name, keepPages⟩)

/-- The file loop of the sweep over the (sorted) directory listing, with
the default `include_tmp_files=False`: temporary names are skipped
before any statistic is touched.  Returns the accumulated stats and the
directory after the sweep. -/
def purgeFold (allCodes : Registry) : List PdfDoc → PurgeStats × List PdfDoc
  | [] => (PurgeStats.zero, [])
  | d :: rest =>
    if _is_tmp_name d.name then
      let r := purgeFold allCodes rest
      (r.1, d :: r.2)
    else
      let f := purgeFile allCodes d
      let r := purgeFold allCodes rest
      (f.1.append r.1,
       match f.2 with
       | some d' => d' :: r.2
       | none => r.2)

/-- `purge_known_codes_in_dir` with its default arguments: one snapshot
of all registered codes, then the sweep over the directory listing. -/
def purge_known_codes_in_dir (reg : Registry) (dir : List PdfDoc) :
    PurgeStats × List PdfDoc :=
  let all_codes := get_all_codes reg
  let r := purgeFold all_codes dir
  ((⟨0, 0, 0, 0, 0, [.loaded all_codes.length]⟩ : PurgeStats).append r.1, r.2)

-- ==========================================================
-- Attribute splitter (`core/pdf_splitter.py`)
-- ==========================================================

/-- The metadata extracted from one page by `_extract_page_meta`:
`(art or None, size or None, color or None)`. -/
abbrev Meta := Option String × Option String × Option String

/-- The grouping key of a page, when all three fields are truthy
(`not (art and size and color)` skips the page). -/
def pageKey : Meta → Option (String × String × String)
  | (some a, some s, some c) =>
    if a = "" ∨ s = "" ∨ c = "" then none else some (a, s, c)
  | _ => none

/-- `groups[key].add_page(...)` on an insertion-ordered dictionary of
page-index lists. -/
def addToGroup (k : String × String × String) (i : Nat) :
    List ((String × String × String) × List Nat) →
    List ((String × String × String) × List Nat)
  | [] => [(k, [i])]
  | (k', is) :: rest =>
    if k' = k then (k', is ++ [i]) :: rest else (k', is) :: addToGroup k i rest

/-- The page loop of `split_pdf_by_meta`: group pages by key in page
order; pages with an incomplete key are counted as skipped. -/
def splitLoop :
    List (Nat × Meta) → List ((String × String × String) × List Nat) →
    (List ((String × String × String) × List Nat) × Nat)
  | [], groups => (groups, 0)
  | (i, m) :: rest, groups =>
    match pageKey m with
    | none =>
      let r := splitLoop rest groups
      (r.1, r.2 + 1)
    | some k => splitLoop rest (addToGroup k i groups)

/-- The report of `split_pdf_by_meta`: one output per key (its page
indices, in page order), the skipped count, the source page count. -/
structure SplitReport where
  outputs : List ((String × String × String) × List Nat)
  skipped_without_meta : Nat
  total_pages : Nat
deriving DecidableEq, Repr

/-- `split_pdf_by_meta` over the per-page metadata of the source (the
source's writers are never empty, mirrored by keeping every group). -/
def split_pdf_by_meta (pages : List Meta) : SplitReport :=
  let r := splitLoop pages.enum []
  { outputs := r.1.filter (fun g => g.2.length ≠ 0)
    skipped_without_meta := r.2
    total_pages := pages.length }

/-- `_safe_name`, step `re.sub(r"[^\w\-\.\s/]+", "_", s)`: each maximal
run of disallowed characters becomes one underscore. -/
def isSafeChar (c : Char) : Bool :=
  isWordChar c || c = '-' || c = '.' || isWsChar c || c = '/'

def collapseBadAux : Bool → List Char → List Char
  | _, [] => []
  | inBad, c :: rest =>
    if isSafeChar c then c :: collapseBadAux false rest
    else if inBad then collapseBadAux true rest
    else '_' :: collapseBadAux true rest

def collapseBad (cs : List Char) : List Char :=
  collapseBadAux false cs

/-- `_safe_name`: strip, collapse disallowed runs, space to underscore,
slash to dash, truncate to 120 characters. -/
def _safe_name (s : String) : String :=
  let t := collapseBad (trimChars s.data)
  let t := t.map (fun c => if c = ' ' then '_' else c)
  let t := t.map (fun c => if c = '/' then '-' else c)
  ⟨t.take 120⟩

/-- The output file name
`f"{_safe_name(art)}__{_safe_name(size)}__{_safe_name(color)}__{len}p_{ts}.pdf"`
(`ts` is the timestamp string the code takes from the clock). -/
def output_fname (k : String × String × String) (npages : Nat) (ts : String) :
    String :=
  _safe_name k.1 ++ "__" ++ _safe_name k.2.1 ++ "__" ++ _safe_name k.2.2 ++
    "__" ++ toString npages ++ "p_" ++ ts ++ ".pdf"

/-- `os.replace(tmp, out_path)` on a directory modelled as a name-keyed
listing: an existing entry of that name is replaced, otherwise the file
is appended. -/
def fsWrite (inv : List (String × List Meta)) (name : String)
    (pages : List Meta) : List (String × List Meta) :=
  if inv.any (fun e => e.1 = name) then
    inv.map (fun e => if e.1 = name then (name, pages) else e)
  else inv ++ [(name, pages)]

def lookupFs (inv : List (String × List Meta)) (name : String) :
    Option (List Meta) :=
  (inv.find? (fun e => e.1 = name)).map (fun e => e.2)

/-- The write-out phase of `split_pdf_by_meta` acting on the inventory
directory: one file per group, written under the generated name; the
source document is only ever read. -/
def split_apply (inv : List (String × List Meta)) (pages : List Meta)
    (ts : String) : List (String × List Meta) :=
  (split_pdf_by_meta pages).outputs.foldl
    (fun acc g =>
      fsWrite acc (output_fname g.1 g.2.length ts)
        (g.2.filterMap (fun i => pages.get? i)))
    inv

-- ==========================================================
-- Auxiliary specification devices (used by the theorems below)
-- ==========================================================

/-- Pages of the head bundle as raw texts. -/
def bundleTexts (o : CutOutcome) : List String :=
  (o.head.getD []).map (fun p => p.2)

/-- The deletion marks produced by the scan over a document none of
whose coded pages is new: exactly the indices (counted from `i`) of the
pages carrying a code. -/
def delOf : List String → Nat → List Nat
  | [], _ => []
  | t :: rest, i =>
    if (_extract_code_from_text t).isSome then i :: delOf rest (i + 1)
    else delOf rest (i + 1)

/-- A document of the sweep output is "clean": it kept at least one page
and none of its pages carries a registered code. -/
def cleanDoc (allCodes : Registry) (d : PdfDoc) : Prop :=
  d.pages ≠ [] ∧ ∀ t ∈ d.pages, pageIsKnown allCodes t = false

/-- First-match association lookup on the splitter's group list. -/
def gfind (k : String × String × String) :
    List ((String × String × String) × List Nat) → Option (List Nat)
  | [] => none
  | (k', is) :: rest => if k' = k then some is else gfind k rest

-- ==========================================================
-- Concrete inventory used by the counterexample and witness of C5
-- ==========================================================

/-- A one-page inventory document matching article `abc`, size `42`. -/
def invDocA : PdfDoc :=
  ⟨"a.pdf", ["abc 42\n(01)11111111111111(21)AAAABBBB"]⟩

/-- A two-page inventory document matching article `abc`, size `42`,
with two further fresh codes. -/
def invDocB : PdfDoc :=
  ⟨"b.pdf",
   ["abc 42\n(01)22222222222222(21)CCCCDDDD",
    "abc 42\n(01)33333333333333(21)EEEEFFFF"]⟩

-- ==========================================================
-- Theorems
-- ==========================================================

-- ---------- general helper lemmas ----------

theorem extractLoopB_none (lines : List (List Char))
    (h : ∀ ln ∈ lines, headlineMatch ln = false) :
    extractLoopB lines = none := by
  induction lines with
  | nil => rfl
  | cons ln rest ih =>
    have hln := h ln (List.mem_cons_self ln rest)
    rw [extractLoopB, hln]
    simp only [Bool.false_eq_true, if_false]
    exact ih (fun l hl => h l (List.mem_cons_of_mem ln hl))

-- ---------- C1 ----------

/-- Claim C1: `register_code_if_new` returns true iff the code was
absent from the registry before the call, and afterwards the code is in
the registry; hence on a code not yet registered, two successive calls
return `(true, false)`. -/
theorem register_if_new_true_iff_absent (reg : Registry) (c : String) :
    ((register_code_if_new reg c).1 = true ↔ c ∉ reg) ∧
    c ∈ (register_code_if_new reg c).2 ∧
    (register_code_if_new (register_code_if_new reg c).2 c).1 = false ∧
    (c ∉ reg →
      (register_code_if_new reg c).1 = true ∧
      (register_code_if_new (register_code_if_new reg c).2 c).1 = false) := by
  unfold register_code_if_new
  by_cases h : c ∈ reg
  · simp [h]
  · simp [h]

theorem register_if_new_true_iff_absent_witness :
    ("X" ∉ ([] : Registry)) ∧
    (register_code_if_new [] "X").1 = true ∧
    (register_code_if_new (register_code_if_new [] "X").2 "X").1 = false := by
  have h := register_if_new_true_iff_absent [] "X"
  exact ⟨by decide, (h.2.2.2 (by decide)).1, (h.2.2.2 (by decide)).2⟩

-- ---------- C6 ----------

/-- Claim C6, counterexample: the text `01234567890123\nABCD1234`
realises the claim's scenario — no parenthesised one-line GS1 form, no
bare `01<14>21` head line, a pure-digit first line of length 14, and a
later line whose printable-ASCII head `ABCD1234` has length ≥ 4 — yet
the extractor used on the consumption and purge paths returns absent,
not that head. -/
theorem extract_code_fallback_cex :
    ("01234567890123".data.all isDigitChar = true) ∧
    ("01234567890123".length = 14) ∧
    (searchParenOneline "01234567890123\nABCD1234".data = none) ∧
    (headlineMatch "01234567890123".data = false) ∧
    (headlineMatch "ABCD1234".data = false) ∧
    (asciiHead "ABCD1234".data = some "ABCD1234".data) ∧
    _extract_code_from_text "01234567890123\nABCD1234" = none := by
  decide

/-- Claim C6, amended: the extractor used on the consumption and purge
paths (`_extract_code_from_text`) has no raw-identifier fallback — on
any text in which neither GS1 header format is recognized it returns
absent; the fallback described by the spec exists only in the helper
`_extract_code_from_lines`, which no consumption or purge caller uses
(shown on the claim's own scenario). -/
theorem extract_code_no_header_absent (text : String)
    (hA : searchParenOneline text.data = none)
    (hB : ∀ ln ∈ ((splitLines text.data).map trimChars).filter
            (fun l => !l.isEmpty), headlineMatch ln = false) :
    _extract_code_from_text text = none ∧
    _extract_code_from_lines ["01234567890123", "ABCD1234"] = some "ABCD1234" := by
  refine ⟨?_, by decide⟩
  unfold _extract_code_from_text
  by_cases he : text = ""
  · simp [he]
  · rw [if_neg he, hA]
    have h := extractLoopB_none _ hB
    simp [h]

theorem extract_code_no_header_absent_witness :
    _extract_code_from_text "hello\nworld 99" = none ∧
    _extract_code_from_lines ["01234567890123", "ABCD1234"] = some "ABCD1234" :=
  extract_code_no_header_absent "hello\nworld 99" (by decide) (by decide)

-- ---------- C3 ----------

/-- Claim C3: on a three-page document extracting codes `[A, A, B]`
(`A`, `B` fresh and distinct) and quota 2, the cut bundle holds exactly
the first `A`-page and the `B`-page, the shortage is 0, no page remains
in the source and the source file is deleted; the duplicate `A`-page is
removed without being counted toward the quota. -/
theorem cut_duplicate_purged_not_counted
    (A B t0 t1 t2 : String) (reg : Registry)
    (h0 : _extract_code_from_text t0 = some A)
    (h1 : _extract_code_from_text t1 = some A)
    (h2 : _extract_code_from_text t2 = some B)
    (hA : A ∉ reg) (hB : B ∉ reg) (hBA : B ≠ A) :
    (cut_first_n_pages_unique reg [t0, t1, t2] 2).head = some [(0, t0), (2, t2)] ∧
    (cut_first_n_pages_unique reg [t0, t1, t2] 2).shortage = 0 ∧
    (cut_first_n_pages_unique reg [t0, t1, t2] 2).keep = [] ∧
    (cut_first_n_pages_unique reg [t0, t1, t2] 2).srcDeleted = true := by
  have hstep : cutLoop 2 [t0, t1, t2] 0 0 reg =
      ([(0, t0), (2, t2)], [0, 1, 2], 2, B :: A :: reg) := by
    simp [cutLoop, register_code_if_new, h0, h1, h2, hA, hB, hBA, List.mem_cons]
  simp [cut_first_n_pages_unique, hstep, List.enum, List.enumFrom]

theorem cut_duplicate_purged_not_counted_witness :
    (cut_first_n_pages_unique []
      ["(01)11111111111111(21)AAAABBBB",
       "(01)11111111111111(21)AAAABBBB",
       "(01)22222222222222(21)CCCCDDDD"] 2).head =
      some [(0, "(01)11111111111111(21)AAAABBBB"),
            (2, "(01)22222222222222(21)CCCCDDDD")] ∧
    (cut_first_n_pages_unique []
      ["(01)11111111111111(21)AAAABBBB",
       "(01)11111111111111(21)AAAABBBB",
       "(01)22222222222222(21)CCCCDDDD"] 2).shortage = 0 ∧
    (cut_first_n_pages_unique []
      ["(01)11111111111111(21)AAAABBBB",
       "(01)11111111111111(21)AAAABBBB",
       "(01)22222222222222(21)CCCCDDDD"] 2).keep = [] ∧
    (cut_first_n_pages_unique []
      ["(01)11111111111111(21)AAAABBBB",
       "(01)11111111111111(21)AAAABBBB",
       "(01)22222222222222(21)CCCCDDDD"] 2).srcDeleted = true :=
  cut_duplicate_purged_not_counted
    "(01)11111111111111(21)AAAABBBB" "(01)22222222222222(21)CCCCDDDD"
    "(01)11111111111111(21)AAAABBBB" "(01)11111111111111(21)AAAABBBB"
    "(01)22222222222222(21)CCCCDDDD" []
    (by decide) (by decide) (by decide) (by decide) (by decide) (by decide)

-- ---------- C2 ----------

theorem cutLoop_fresh (n : Nat) :
    ∀ (ts codes : List String) (i taken : Nat) (reg : Registry),
      ts.map _extract_code_from_text = codes.map some →
      codes.Nodup → (∀ c ∈ codes, c ∉ reg) → taken ≤ n →
      (cutLoop n ts i taken reg).2.2.1 = taken + min (n - taken) ts.length ∧
      (cutLoop n ts i taken reg).1.length = min (n - taken) ts.length := by
  intro ts
  induction ts with
  | nil =>
    intro codes i taken reg _ _ _ _
    simp [cutLoop]
  | cons t rest ih =>
    intro codes i taken reg hmap hnd hfresh hle
    cases codes with
    | nil => simp at hmap
    | cons c cs =>
      simp only [List.map_cons, List.cons.injEq] at hmap
      obtain ⟨hc, hrest⟩ := hmap
      rw [cutLoop]
      by_cases hstop : n ≤ taken
      · have : taken = n := Nat.le_antisymm hle hstop
        subst this
        simp [hstop]
      · have hcfresh : c ∉ reg := hfresh c (List.mem_cons_self c cs)
        have hreg : register_code_if_new reg c = (true, c :: reg) := by
          simp [register_code_if_new, hcfresh]
        rw [if_neg hstop, hc]
        simp only [hreg, eq_self_iff_true, if_true]
        have hfresh' : ∀ x ∈ cs, x ∉ c :: reg := by
          intro x hx
          simp only [List.mem_cons, not_or]
          exact ⟨fun hxc => (List.nodup_cons.mp hnd).1 (hxc ▸ hx),
                 hfresh x (List.mem_cons_of_mem c hx)⟩
        have hrec := ih cs (i + 1) (taken + 1) (c :: reg) hrest
          (List.nodup_cons.mp hnd).2 hfresh' (by omega)
        constructor
        · rw [hrec.1]; simp only [List.length_cons]; omega
        · simp only [List.length_cons, hrec.2]; omega

/-- Claim C2: on a document of `P` pages whose pages each extract a
distinct code absent from the registry, `cut_first_n_pages_unique` with
quota `n ≤ P` yields a bundle of exactly `n` pages and shortage 0, with
`n > P` a bundle of exactly `P` pages and shortage `n - P`; in all cases
the shortage equals `max(0, quota - new_pages_obtained)`. -/
theorem cut_quota_conservation (reg : Registry) (pages codes : List String)
    (n : Nat)
    (hcodes : pages.map _extract_code_from_text = codes.map some)
    (hnodup : codes.Nodup)
    (hfresh : ∀ c ∈ codes, c ∉ reg) :
    (n ≤ pages.length →
      bundleCount (cut_first_n_pages_unique reg pages n) = n ∧
      (cut_first_n_pages_unique reg pages n).shortage = 0) ∧
    (pages.length < n →
      bundleCount (cut_first_n_pages_unique reg pages n) = pages.length ∧
      (cut_first_n_pages_unique reg pages n).shortage = n - pages.length) ∧
    (((cut_first_n_pages_unique reg pages n).shortage : ℤ) =
      max 0 ((n : ℤ) - (bundleCount (cut_first_n_pages_unique reg pages n) : ℤ))) ∧
    (0 < n → 0 < pages.length →
      ∃ l, (cut_first_n_pages_unique reg pages n).head = some l ∧
        l.length = min n pages.length) := by
  by_cases hn : n = 0
  · subst hn
    simp [cut_first_n_pages_unique, bundleCount]
  · have hloop := cutLoop_fresh n pages codes 0 0 reg hcodes hnodup hfresh
      (Nat.zero_le n)
    rw [Nat.sub_zero, Nat.zero_add] at hloop
    unfold cut_first_n_pages_unique
    rw [if_neg hn]
    by_cases htk : (cutLoop n pages 0 0 reg).2.2.1 = 0
    · have hmin : min n pages.length = 0 := by omega
      have hP : pages.length = 0 := by omega
      have hpages : pages = [] := List.length_eq_zero.mp hP
      subst hpages
      simp only [cutLoop] at htk ⊢
      simp [bundleCount, hP, hmin]
      omega
    · rw [if_neg htk]
      simp only [bundleCount, Option.getD_some]
      refine ⟨?_, ?_, ?_, ?_⟩
      · intro hle
        have : min n pages.length = n := by omega
        constructor
        · rw [hloop.2, this]
        · rw [hloop.1, this]; omega
      · intro hlt
        have : min n pages.length = pages.length := by omega
        constructor
        · rw [hloop.2, this]
        · rw [hloop.1, this]
      · rw [hloop.1, hloop.2]
        push_cast
        omega
      · intro _ _
        exact ⟨(cutLoop n pages 0 0 reg).1, rfl, hloop.2⟩

theorem cut_quota_conservation_witness :
    (bundleCount (cut_first_n_pages_unique []
        ["(01)11111111111111(21)AAAABBBB",
         "(01)22222222222222(21)CCCCDDDD"] 5) = 2 ∧
      (cut_first_n_pages_unique []
        ["(01)11111111111111(21)AAAABBBB",
         "(01)22222222222222(21)CCCCDDDD"] 5).shortage = 3) := by
  have h := cut_quota_conservation []
    ["(01)11111111111111(21)AAAABBBB", "(01)22222222222222(21)CCCCDDDD"]
    ["(01)11111111111111(21)AAAABBBB", "(01)22222222222222(21)CCCCDDDD"] 5
    (by decide) (by decide) (by decide)
  exact h.2.1 (by decide)

-- ---------- C4 ----------

theorem mem_delOf (ts : List String) :
    ∀ (i j : Nat), j ∈ delOf ts i ↔
      ∃ k t, ts[k]? = some t ∧ j = i + k ∧
        (_extract_code_from_text t).isSome := by
  induction ts with
  | nil => intro i j; simp [delOf]
  | cons t rest ih =>
    intro i j
    rw [delOf]
    by_cases hx : (_extract_code_from_text t).isSome
    · rw [if_pos hx]
      simp only [List.mem_cons, ih]
      constructor
      · rintro (rfl | ⟨k, t', hget, rfl, hsome⟩)
        · exact ⟨0, t, by simp, by omega, hx⟩
        · exact ⟨k + 1, t', by simpa using hget, by omega, hsome⟩
      · rintro ⟨k, t', hget, rfl, hsome⟩
        cases k with
        | zero =>
          left; omega
        | succ k =>
          right
          exact ⟨k, t', by simpa using hget, by omega, hsome⟩
    · rw [if_neg hx, ih]
      constructor
      · rintro ⟨k, t', hget, rfl, hsome⟩
        exact ⟨k + 1, t', by simpa using hget, by omega, hsome⟩
      · rintro ⟨k, t', hget, rfl, hsome⟩
        cases k with
        | zero =>
          simp only [List.getElem?_cons_zero, Option.some.injEq] at hget
          exact absurd (hget ▸ hsome) hx
        | succ k =>
          exact ⟨k, t', by simpa using hget, by omega, hsome⟩

theorem cutLoop_all_registered (n : Nat) (hn : 0 < n) :
    ∀ (ts : List String) (i : Nat) (reg : Registry),
      (∀ t ∈ ts, ∀ c, _extract_code_from_text t = some c → c ∈ reg) →
      cutLoop n ts i 0 reg = ([], delOf ts i, 0, reg) := by
  intro ts
  induction ts with
  | nil => intro i reg _; simp [cutLoop, delOf]
  | cons t rest ih =>
    intro i reg h
    have hrest := ih (i + 1) reg (fun t' ht' => h t' (List.mem_cons_of_mem t ht'))
    rw [cutLoop, if_neg (by omega : ¬ n ≤ 0)]
    cases hx : _extract_code_from_text t with
    | none => simp [hx, hrest, delOf]
    | some c =>
      have hc : c ∈ reg := h t (List.mem_cons_self t rest) c hx
      have hreg : register_code_if_new reg c = (false, reg) := by
        simp [register_code_if_new, hc]
      simp [hreg, hrest, delOf, hx]

/-- Claim C4: when no scanned page of the document yields a code absent
from the registry, the consumption run returns an absent bundle and the
full quota as shortage, the registry is unchanged, and the pages that
remain in the source are exactly those with no extractable code (the
already-registered duplicates are removed). -/
theorem cut_zero_new_full_shortage (reg : Registry) (pages : List String)
    (n : Nat) (hn : 0 < n)
    (hdup : ∀ t ∈ pages, ∀ c, _extract_code_from_text t = some c → c ∈ reg) :
    (cut_first_n_pages_unique reg pages n).head = none ∧
    (cut_first_n_pages_unique reg pages n).shortage = n ∧
    (cut_first_n_pages_unique reg pages n).reg = reg ∧
    (∀ j t, (j, t) ∈ (cut_first_n_pages_unique reg pages n).keep ↔
      pages[j]? = some t ∧ _extract_code_from_text t = none) := by
  have hloop := cutLoop_all_registered n hn pages 0 reg hdup
  have hmem : ∀ j t, pages[j]? = some t →
      (j ∈ delOf pages 0 ↔ (_extract_code_from_text t).isSome) := by
    intro j t hget
    rw [mem_delOf]
    constructor
    · rintro ⟨k, t', hget', hjk, hsome⟩
      have : k = j := by omega
      subst this
      rw [hget] at hget'
      cases hget'
      exact hsome
    · intro hsome
      exact ⟨j, t, hget, by omega, hsome⟩
  unfold cut_first_n_pages_unique
  rw [if_neg (by omega : ¬ n = 0)]
  simp only [hloop, if_true]
  by_cases hemp : (delOf pages 0).isEmpty
  · rw [if_pos hemp]
    refine ⟨rfl, rfl, rfl, ?_⟩
    intro j t
    rw [List.mk_mem_enum_iff_getElem?]
    constructor
    · intro hget
      refine ⟨hget, ?_⟩
      cases hx : _extract_code_from_text t with
      | none => rfl
      | some c =>
        have : j ∈ delOf pages 0 := (hmem j t hget).mpr (by simp [hx])
        rw [List.isEmpty_iff] at hemp
        rw [hemp] at this
        exact absurd this (List.not_mem_nil j)
    · exact fun h => h.1
  · rw [if_neg hemp]
    refine ⟨rfl, Nat.sub_zero n, rfl, ?_⟩
    intro j t
    rw [List.mem_filter]
    rw [List.mk_mem_enum_iff_getElem?]
    constructor
    · rintro ⟨hget, hdec⟩
      refine ⟨hget, ?_⟩
      have hnotin : j ∉ delOf pages 0 := by
        simpa using hdec
      cases hx : _extract_code_from_text t with
      | none => rfl
      | some c =>
        exact absurd ((hmem j t hget).mpr (by simp [hx])) hnotin
    · rintro ⟨hget, hnone⟩
      refine ⟨hget, ?_⟩
      have : j ∉ delOf pages 0 := by
        rw [hmem j t hget, hnone]
        simp
      simpa using this

theorem cut_zero_new_full_shortage_witness :
    (cut_first_n_pages_unique ["(01)11111111111111(21)AAAABBBB"]
      ["(01)11111111111111(21)AAAABBBB", "x"] 3).head = none ∧
    (cut_first_n_pages_unique ["(01)11111111111111(21)AAAABBBB"]
      ["(01)11111111111111(21)AAAABBBB", "x"] 3).shortage = 3 ∧
    (cut_first_n_pages_unique ["(01)11111111111111(21)AAAABBBB"]
      ["(01)11111111111111(21)AAAABBBB", "x"] 3).reg =
      ["(01)11111111111111(21)AAAABBBB"] ∧
    ((1, "x") ∈ (cut_first_n_pages_unique ["(01)11111111111111(21)AAAABBBB"]
      ["(01)11111111111111(21)AAAABBBB", "x"] 3).keep) := by
  have h := cut_zero_new_full_shortage ["(01)11111111111111(21)AAAABBBB"]
    ["(01)11111111111111(21)AAAABBBB", "x"] 3 (by decide)
    (by
      intro t ht c hc
      fin_cases ht
      · rw [show _extract_code_from_text "(01)11111111111111(21)AAAABBBB" =
            some "(01)11111111111111(21)AAAABBBB" from by decide] at hc
        cases hc
        decide
      · rw [show _extract_code_from_text "x" = none from by decide] at hc
        cases hc)
  exact ⟨h.1, h.2.1, h.2.2.1, (h.2.2.2 1 "x").mpr (by decide)⟩

-- ---------- C9 ----------

theorem purgeFile_clean (allCodes : Registry) (d : PdfDoc)
    (h : cleanDoc allCodes d) :
    purgeFile allCodes d = (⟨1, 0, 0, d.pages.length, 0, []⟩, some d) := by
  obtain ⟨hne, hall⟩ := h
  have hlen : d.pages.length ≠ 0 := fun h0 => hne (List.length_eq_zero.mp h0)
  have hfilter : d.pages.filter (fun t => !pageIsKnown allCodes t) = d.pages :=
    List.filter_eq_self.mpr (fun t ht => by rw [hall t ht]; rfl)
  unfold purgeFile
  rw [if_neg hlen]
  simp [hfilter]

theorem purgeFile_output_clean (allCodes : Registry) (d d' : PdfDoc)
    (h : (purgeFile allCodes d).2 = some d') : cleanDoc allCodes d' := by
  unfold purgeFile at h
  by_cases h0 : d.pages.length = 0
  · rw [if_pos h0] at h
    cases h
  · rw [if_neg h0] at h
    by_cases hdel :
        d.pages.length - (d.pages.filter (fun t => !pageIsKnown allCodes t)).length = 0
    · rw [if_pos hdel] at h
      obtain rfl : d = d' := by injection h
      have hlen2 : (d.pages.filter (fun t => !pageIsKnown allCodes t)).length =
          d.pages.length := by
        have := List.length_filter_le (fun t => !pageIsKnown allCodes t) d.pages
        omega
      have hfilter := (List.filter_sublist (l := d.pages)
        (p := fun t => !pageIsKnown allCodes t)).eq_of_length hlen2
      refine ⟨fun hnil => h0 (by rw [hnil]; rfl), fun t ht => ?_⟩
      have := List.filter_eq_self.mp hfilter t ht
      simpa using this
    · rw [if_neg hdel] at h
      by_cases hemp : (d.pages.filter (fun t => !pageIsKnown allCodes t)).isEmpty
      · rw [if_pos hemp] at h
        cases h
      · rw [if_neg hemp] at h
        obtain rfl : (⟨d.name, d.pages.filter (fun t => !pageIsKnown allCodes t)⟩ :
            PdfDoc) = d' := by injection h
        constructor
        · intro hnil
          have hnil2 : d.pages.filter (fun t => !pageIsKnown allCodes t) = [] := hnil
          rw [List.isEmpty_iff] at hemp
          exact hemp hnil2
        · intro t ht
          have ht2 : t ∈ d.pages.filter (fun t => !pageIsKnown allCodes t) := ht
          have := List.of_mem_filter ht2
          simpa using this

theorem purgeFold_clean_list (allCodes : Registry) (dir : List PdfDoc)
    (h : ∀ d ∈ dir, _is_tmp_name d.name = true ∨ cleanDoc allCodes d) :
    (purgeFold allCodes dir).2 = dir ∧
    (purgeFold allCodes dir).1.files_modified = 0 ∧
    (purgeFold allCodes dir).1.files_deleted = 0 ∧
    (purgeFold allCodes dir).1.pages_deleted = 0 ∧
    (purgeFold allCodes dir).1.details = [] := by
  induction dir with
  | nil => exact ⟨rfl, rfl, rfl, rfl, rfl⟩
  | cons d rest ih =>
    have hrest := ih (fun d' hd' => h d' (List.mem_cons_of_mem d hd'))
    by_cases htmp : _is_tmp_name d.name
    · simp only [purgeFold, if_pos htmp]
      exact ⟨by simp [hrest.1], by simp [hrest.2.1], by simp [hrest.2.2.1],
        by simp [hrest.2.2.2.1], by simp [hrest.2.2.2.2]⟩
    · have hclean : cleanDoc allCodes d := by
        rcases h d (List.mem_cons_self d rest) with htmp2 | hc
        · exact absurd htmp2 htmp
        · exact hc
      simp only [purgeFold, if_neg htmp, purgeFile_clean allCodes d hclean]
      refine ⟨by simp [hrest.1], ?_, ?_, ?_, ?_⟩ <;>
        simp [PurgeStats.append, hrest.2.1, hrest.2.2.1, hrest.2.2.2.1,
          hrest.2.2.2.2]

theorem purgeFold_output_invariant (allCodes : Registry) (dir : List PdfDoc) :
    ∀ d' ∈ (purgeFold allCodes dir).2,
      _is_tmp_name d'.name = true ∨ cleanDoc allCodes d' := by
  induction dir with
  | nil => intro d' hd'; cases hd'
  | cons d rest ih =>
    intro d' hd'
    rw [purgeFold] at hd'
    by_cases htmp : _is_tmp_name d.name
    · rw [if_pos htmp] at hd'
      rcases List.mem_cons.mp hd' with rfl | hmem
      · exact Or.inl htmp
      · exact ih d' hmem
    · rw [if_neg htmp] at hd'
      simp only at hd'
      cases hout : (purgeFile allCodes d).2 with
      | none =>
        rw [hout] at hd'
        exact ih d' hd'
      | some dd =>
        rw [hout] at hd'
        rcases List.mem_cons.mp hd' with rfl | hmem
        · exact Or.inr (purgeFile_output_clean allCodes d d' hout)
        · exact ih d' hmem

/-- Claim C9: a second purge sweep against the same registry snapshot,
run on the inventory the first sweep left behind, deletes zero pages,
deletes zero documents, modifies zero documents, and leaves the
inventory exactly as the first sweep left it. -/
theorem purge_sweep_idempotent (reg : Registry) (dir : List PdfDoc) :
    (purge_known_codes_in_dir reg (purge_known_codes_in_dir reg dir).2).1.pages_deleted = 0 ∧
    (purge_known_codes_in_dir reg (purge_known_codes_in_dir reg dir).2).1.files_deleted = 0 ∧
    (purge_known_codes_in_dir reg (purge_known_codes_in_dir reg dir).2).1.files_modified = 0 ∧
    (purge_known_codes_in_dir reg (purge_known_codes_in_dir reg dir).2).2 =
      (purge_known_codes_in_dir reg dir).2 := by
  have hinv := purgeFold_output_invariant (get_all_codes reg) dir
  have hfirst : (purge_known_codes_in_dir reg dir).2 =
      (purgeFold (get_all_codes reg) dir).2 := rfl
  rw [hfirst]
  have hclean := purgeFold_clean_list (get_all_codes reg)
    (purgeFold (get_all_codes reg) dir).2 hinv
  unfold purge_known_codes_in_dir
  simp only [PurgeStats.append]
  exact ⟨by simp [hclean.2.2.2.1], by simp [hclean.2.2.1], by simp [hclean.2.1],
    by simp [hclean.1]⟩

-- ---------- C10 ----------

theorem purgeStats_append_assoc (a b c : PurgeStats) :
    (a.append b).append c = a.append (b.append c) := by
  simp [PurgeStats.append, Nat.add_assoc]

theorem purgeFold_append (allCodes : Registry) (l1 l2 : List PdfDoc) :
    purgeFold allCodes (l1 ++ l2) =
      ((purgeFold allCodes l1).1.append (purgeFold allCodes l2).1,
       (purgeFold allCodes l1).2 ++ (purgeFold allCodes l2).2) := by
  induction l1 with
  | nil =>
    simp [purgeFold, PurgeStats.append, PurgeStats.zero]
  | cons d rest ih =>
    rw [List.cons_append, purgeFold, purgeFold, ih]
    by_cases htmp : _is_tmp_name d.name
    · rw [if_pos htmp, if_pos htmp]
      rfl
    · rw [if_neg htmp, if_neg htmp]
      cases hout : (purgeFile allCodes d).2 <;>
        simp [hout, purgeStats_append_assoc]

/-- Claim C10, amended: a file whose lowercased name contains the
contiguous substring `tmp` (or `__head_` or `__tail_`) is passed over by
the purge sweep with its default arguments: it contributes to no
statistic and appears unchanged, in place, in the swept inventory.  The
name `stamp.pdf` does not contain the contiguous substring `tmp`, so
ordinary names of that shape are scanned normally (see the
counterexample). -/
theorem purge_never_touches_tmp_named (reg : Registry) (l1 l2 : List PdfDoc)
    (name : String) (ps : List String) (h : _is_tmp_name name = true) :
    (purge_known_codes_in_dir reg (l1 ++ ⟨name, ps⟩ :: l2)).1 =
      (purge_known_codes_in_dir reg (l1 ++ l2)).1 ∧
    (purge_known_codes_in_dir reg (l1 ++ ⟨name, ps⟩ :: l2)).2 =
      (purgeFold (get_all_codes reg) l1).2 ++ ⟨name, ps⟩ ::
        (purgeFold (get_all_codes reg) l2).2 := by
  have hx : purgeFold (get_all_codes reg) ((⟨name, ps⟩ : PdfDoc) :: l2) =
      ((purgeFold (get_all_codes reg) l2).1,
       ⟨name, ps⟩ :: (purgeFold (get_all_codes reg) l2).2) := by
    rw [purgeFold, if_pos h]
  simp only [purge_known_codes_in_dir]
  rw [purgeFold_append, purgeFold_append, hx]
  exact ⟨rfl, rfl⟩

theorem purge_never_touches_tmp_named_witness :
    (purge_known_codes_in_dir [] [⟨"order_tmp_v2.pdf", ["x"]⟩]).1 =
      (purge_known_codes_in_dir [] []).1 ∧
    (purge_known_codes_in_dir [] [⟨"order_tmp_v2.pdf", ["x"]⟩]).2 =
      [⟨"order_tmp_v2.pdf", ["x"]⟩] := by
  have h := purge_never_touches_tmp_named [] [] [] "order_tmp_v2.pdf" ["x"]
    (by decide)
  exact ⟨h.1, h.2⟩

/-- Claim C10, counterexample: `stamp.pdf` does not contain the
contiguous substring `tmp` (its letters `t`, `m`, `p` are not adjacent),
so the purge sweep does scan and count such a file — contradicting the
claim that names like `stamp.pdf` are among the skipped ones. -/
theorem purge_scans_stamp_cex :
    containsSub "tmp".data (lowerChars "stamp.pdf".data) = false ∧
    _is_tmp_name "stamp.pdf" = false ∧
    (purge_known_codes_in_dir [] [⟨"stamp.pdf", ["x"]⟩]).1.files_scanned = 1 ∧
    (purge_known_codes_in_dir [] [⟨"stamp.pdf", ["x"]⟩]).1.pages_scanned = 1 := by
  decide

-- ---------- C8 ----------

theorem gfind_addToGroup_same (k : String × String × String) (i : Nat) :
    ∀ g, gfind k (addToGroup k i g) = some ((gfind k g).getD [] ++ [i]) := by
  intro g
  induction g with
  | nil => simp [addToGroup, gfind]
  | cons e rest ih =>
    obtain ⟨k', is⟩ := e
    rw [addToGroup]
    by_cases hk : k' = k
    · subst hk
      rw [if_pos rfl]
      simp [gfind]
    · rw [if_neg hk]
      simp only [gfind, if_neg hk]
      exact ih

theorem gfind_addToGroup_ne (k k' : String × String × String) (i : Nat)
    (h : k' ≠ k) :
    ∀ g, gfind k' (addToGroup k i g) = gfind k' g := by
  intro g
  induction g with
  | nil =>
    show (if k = k' then some [i] else gfind k' []) = none
    rw [if_neg (fun hh => h hh.symm)]
    rfl
  | cons e rest ih =>
    obtain ⟨k'', is⟩ := e
    rw [addToGroup]
    by_cases hk : k'' = k
    · subst hk
      rw [if_pos rfl]
      simp only [gfind]
      by_cases hkk : k'' = k'
      · exact absurd hkk.symm h
      · rw [if_neg hkk, if_neg hkk]
    · rw [if_neg hk]
      simp only [gfind]
      by_cases hkk : k'' = k'
      · rw [if_pos hkk, if_pos hkk]
      · rw [if_neg hkk, if_neg hkk]
        exact ih

theorem mem_keys_addToGroup (k k' : String × String × String) (i : Nat) :
    ∀ g, k' ∈ (addToGroup k i g).map Prod.fst ↔
      k' ∈ g.map Prod.fst ∨ k' = k := by
  intro g
  induction g with
  | nil => simp [addToGroup]
  | cons e rest ih =>
    obtain ⟨k'', is⟩ := e
    rw [addToGroup]
    by_cases hk : k'' = k
    · subst hk
      rw [if_pos rfl]
      simp only [List.map_cons, List.mem_cons]
      constructor
      · rintro (rfl | hm)
        · exact Or.inl (Or.inl rfl)
        · exact Or.inl (Or.inr hm)
      · rintro ((rfl | hm) | rfl)
        · exact Or.inl rfl
        · exact Or.inr hm
        · exact Or.inl rfl
    · rw [if_neg hk]
      simp only [List.map_cons, List.mem_cons, ih]
      tauto

theorem nodup_keys_addToGroup (k : String × String × String) (i : Nat) :
    ∀ g, (g.map Prod.fst).Nodup → ((addToGroup k i g).map Prod.fst).Nodup := by
  intro g
  induction g with
  | nil => intro _; simp [addToGroup]
  | cons e rest ih =>
    obtain ⟨k'', is⟩ := e
    intro hnd
    rw [List.map_cons, List.nodup_cons] at hnd
    rw [addToGroup]
    by_cases hk : k'' = k
    · subst hk
      rw [if_pos rfl]
      rw [List.map_cons, List.nodup_cons]
      exact hnd
    · rw [if_neg hk]
      rw [List.map_cons, List.nodup_cons]
      refine ⟨?_, ih hnd.2⟩
      rw [mem_keys_addToGroup]
      rintro (hm | rfl)
      · exact hnd.1 hm
      · exact hk rfl

theorem sum_addToGroup (k : String × String × String) (i : Nat) :
    ∀ g, ((addToGroup k i g).map (fun e => e.2.length)).sum =
      (g.map (fun e => e.2.length)).sum + 1 := by
  intro g
  induction g with
  | nil => simp [addToGroup]
  | cons e rest ih =>
    obtain ⟨k'', is⟩ := e
    rw [addToGroup]
    by_cases hk : k'' = k
    · subst hk
      rw [if_pos rfl]
      simp only [List.map_cons, List.sum_cons, List.length_append,
        List.length_cons, List.length_nil]
      omega
    · rw [if_neg hk]
      simp only [List.map_cons, List.sum_cons, ih]
      omega

theorem nonempty_addToGroup (k : String × String × String) (i : Nat) :
    ∀ g, (∀ e ∈ g, e.2 ≠ []) → ∀ e ∈ addToGroup k i g, e.2 ≠ [] := by
  intro g
  induction g with
  | nil =>
    intro _ e he
    rw [addToGroup] at he
    rcases List.mem_cons.mp he with rfl | hm
    · simp
    · cases hm
  | cons e0 rest ih =>
    obtain ⟨k'', is⟩ := e0
    intro hall e he
    rw [addToGroup] at he
    by_cases hk : k'' = k
    · subst hk
      rw [if_pos rfl] at he
      rcases List.mem_cons.mp he with rfl | hm
      · simp
      · exact hall e (List.mem_cons_of_mem _ hm)
    · rw [if_neg hk] at he
      rcases List.mem_cons.mp he with rfl | hm
      · exact hall _ (List.mem_cons_self _ _)
      · exact ih (fun e' he' => hall e' (List.mem_cons_of_mem _ he')) e hm

theorem gfind_of_mem_nodup (k : String × String × String)
    (is : List Nat) :
    ∀ g, (g.map Prod.fst).Nodup → (k, is) ∈ g → gfind k g = some is := by
  intro g
  induction g with
  | nil => intro _ hm; cases hm
  | cons e rest ih =>
    obtain ⟨k'', is'⟩ := e
    intro hnd hm
    rw [List.map_cons, List.nodup_cons] at hnd
    rcases List.mem_cons.mp hm with heq | hmem
    · injection heq with h1 h2
      subst h1; subst h2
      simp [gfind]
    · rw [gfind]
      by_cases hk : k'' = k
      · subst hk
        exact absurd (List.mem_map_of_mem Prod.fst hmem) hnd.1
      · rw [if_neg hk]
        exact ih hnd.2 hmem

theorem splitLoop_char :
    ∀ (ps : List (Nat × Meta))
      (groups : List ((String × String × String) × List Nat)),
      (splitLoop ps groups).2 =
        (ps.filter (fun p => pageKey p.2 = none)).length ∧
      ((groups.map Prod.fst).Nodup →
        ((splitLoop ps groups).1.map Prod.fst).Nodup) ∧
      (∀ k, k ∈ (splitLoop ps groups).1.map Prod.fst ↔
        (k ∈ groups.map Prod.fst ∨ ∃ p ∈ ps, pageKey p.2 = some k)) ∧
      (∀ k, (gfind k (splitLoop ps groups).1).getD [] =
        (gfind k groups).getD [] ++
          ((ps.filter (fun p => pageKey p.2 = some k)).map Prod.fst)) ∧
      (((splitLoop ps groups).1.map (fun e => e.2.length)).sum =
        ((groups.map (fun e => e.2.length)).sum +
          (ps.filter (fun p => (pageKey p.2).isSome)).length)) ∧
      ((∀ e ∈ groups, e.2 ≠ []) → ∀ e ∈ (splitLoop ps groups).1, e.2 ≠ []) := by
  intro ps
  induction ps with
  | nil =>
    intro groups
    refine ⟨rfl, fun h => h, ?_, ?_, ?_, fun h => h⟩
    · intro k; simp [splitLoop]
    · intro k; simp [splitLoop]
    · simp [splitLoop]
  | cons p rest ih =>
    obtain ⟨i, m⟩ := p
    intro groups
    cases hkey : pageKey m with
    | none =>
      have hx := ih groups
      rw [splitLoop]
      simp only [hkey]
      refine ⟨?_, hx.2.1, ?_, ?_, ?_, hx.2.2.2.2.2⟩
      · rw [hx.1]
        simp [List.filter_cons, hkey]
      · intro k
        rw [hx.2.2.1 k]
        simp [hkey]
      · intro k
        rw [hx.2.2.2.1 k]
        simp [List.filter_cons, hkey]
      · rw [hx.2.2.2.2.1]
        simp [List.filter_cons, hkey]
    | some k0 =>
      have hx := ih (addToGroup k0 i groups)
      rw [splitLoop]
      simp only [hkey]
      refine ⟨?_, ?_, ?_, ?_, ?_, ?_⟩
      · rw [hx.1]
        simp [List.filter_cons, hkey]
      · intro hnd
        exact hx.2.1 (nodup_keys_addToGroup k0 i groups hnd)
      · intro k
        rw [hx.2.2.1 k, mem_keys_addToGroup]
        constructor
        · rintro ((hm | rfl) | hex)
          · exact Or.inl hm
          · exact Or.inr ⟨(i, m), List.mem_cons_self _ _, by rw [hkey]⟩
          · obtain ⟨p, hp, hq⟩ := hex
            exact Or.inr ⟨p, List.mem_cons_of_mem _ hp, hq⟩
        · rintro (hm | hex)
          · exact Or.inl (Or.inl hm)
          · obtain ⟨p, hp, hq⟩ := hex
            rcases List.mem_cons.mp hp with rfl | hp2
            · rw [hkey] at hq
              injection hq with h1
              exact Or.inl (Or.inr h1.symm)
            · exact Or.inr ⟨p, hp2, hq⟩
      · intro k
        rw [hx.2.2.2.1 k]
        by_cases hk : k = k0
        · subst hk
          rw [gfind_addToGroup_same]
          simp only [Option.getD_some]
          rw [List.filter_cons]
          simp only [hkey]
          simp [List.append_assoc]
        · rw [gfind_addToGroup_ne k0 k i hk]
          rw [List.filter_cons]
          simp only [hkey]
          have : (decide (some k0 = some k)) = false := by
            simp
            exact fun h => hk h.symm
          rw [this]
          simp
      · rw [hx.2.2.2.2.1, sum_addToGroup]
        simp [List.filter_cons, hkey]
        omega
      · intro hne
        exact hx.2.2.2.2.2 (nonempty_addToGroup k0 i groups hne)

theorem find_replace_ne (name nm : String) (ps : List Meta) (h : name ≠ nm) :
    ∀ inv : List (String × List Meta),
      ((inv.map (fun e => if e.1 = name then (name, ps) else e)).find?
        (fun e => e.1 = nm)) = inv.find? (fun e => e.1 = nm) := by
  intro inv
  induction inv with
  | nil => rfl
  | cons e rest ih =>
    by_cases he : e.1 = name
    · simp only [List.map_cons, if_pos he]
      rw [List.find?_cons, List.find?_cons]
      have h1 : (decide ((name, ps).1 = nm)) = false := by simp [h]
      have h2 : (decide (e.1 = nm)) = false := by simp [he, h]
      rw [h1, h2, ih]
    · simp only [List.map_cons, if_neg he]
      rw [List.find?_cons, List.find?_cons]
      by_cases he' : e.1 = nm
      · simp [he']
      · have h2 : (decide (e.1 = nm)) = false := by simp [he']
        rw [h2, ih]

theorem lookupFs_fsWrite_ne (inv : List (String × List Meta))
    (name nm : String) (ps : List Meta) (h : name ≠ nm) :
    lookupFs (fsWrite inv name ps) nm = lookupFs inv nm := by
  unfold fsWrite lookupFs
  by_cases hex : inv.any (fun e => e.1 = name)
  · rw [if_pos hex, find_replace_ne name nm ps h inv]
  · rw [if_neg hex, List.find?_append]
    have : ([((name, ps) : String × List Meta)].find? (fun e => e.1 = nm)) = none := by
      simp [h]
    rw [this]
    cases inv.find? (fun e => e.1 = nm) <;> rfl

theorem foldl_fsWrite_lookup (ts nm : String) (pages : List Meta) :
    ∀ (gs : List ((String × String × String) × List Nat))
      (inv : List (String × List Meta)),
      (∀ g ∈ gs, output_fname g.1 g.2.length ts ≠ nm) →
      lookupFs (gs.foldl (fun acc g =>
        fsWrite acc (output_fname g.1 g.2.length ts)
          (g.2.filterMap (fun i => pages.get? i))) inv) nm = lookupFs inv nm := by
  intro gs
  induction gs with
  | nil => intro inv _; rfl
  | cons g rest ih =>
    intro inv hall
    rw [List.foldl_cons]
    rw [ih _ (fun g' hg' => hall g' (List.mem_cons_of_mem g hg'))]
    exact lookupFs_fsWrite_ne inv _ nm _ (hall g (List.mem_cons_self g rest))

/-- Claim C8: the splitter produces exactly one output group per
distinct fully-resolved (article, size, color) key, each group holding
exactly the indices of the pages carrying that key (in page order);
pages missing any of the three fields are counted as skipped; skipped
plus the grouped page counts equals the source page count; and the
source document, looked up by its name, is untouched by the write-out
(whose generated output names differ from it). -/
theorem split_by_meta_spec (pages : List Meta) :
    ((split_pdf_by_meta pages).outputs.map Prod.fst).Nodup ∧
    (∀ k, k ∈ (split_pdf_by_meta pages).outputs.map Prod.fst ↔
      ∃ m ∈ pages, pageKey m = some k) ∧
    (∀ k is, (k, is) ∈ (split_pdf_by_meta pages).outputs →
      is = (pages.enum.filter (fun p => pageKey p.2 = some k)).map Prod.fst) ∧
    ((split_pdf_by_meta pages).skipped_without_meta =
      (pages.filter (fun m => pageKey m = none)).length) ∧
    ((split_pdf_by_meta pages).skipped_without_meta +
      ((split_pdf_by_meta pages).outputs.map (fun e => e.2.length)).sum =
      (split_pdf_by_meta pages).total_pages) ∧
    (∀ (inv : List (String × List Meta)) (ts nm : String),
      (∀ g ∈ (split_pdf_by_meta pages).outputs,
        output_fname g.1 g.2.length ts ≠ nm) →
      lookupFs (split_apply inv pages ts) nm = lookupFs inv nm) := by
  have hchar := splitLoop_char pages.enum []
  have hne : ∀ e ∈ (splitLoop pages.enum []).1, e.2 ≠ [] :=
    hchar.2.2.2.2.2 (by intro e he; cases he)
  have houtputs : (split_pdf_by_meta pages).outputs =
      (splitLoop pages.enum []).1 := by
    unfold split_pdf_by_meta
    exact List.filter_eq_self.mpr (fun e he => by
      simp only [decide_eq_true_eq]
      exact fun h0 => hne e he (List.length_eq_zero.mp h0))
  have hskip : (split_pdf_by_meta pages).skipped_without_meta =
      (splitLoop pages.enum []).2 := rfl
  have henum_filter : ∀ (q : Meta → Bool),
      (pages.enum.filter (fun p => q p.2)).length =
        (pages.filter q).length := by
    intro q
    have h1 : (pages.enum.map Prod.snd).filter q =
        (pages.enum.filter (fun p => q p.2)).map Prod.snd := by
      rw [List.filter_map]
      rfl
    have h2 := congrArg List.length h1
    rw [List.enum_map_snd] at h2
    rw [List.length_map] at h2
    exact h2.symm
  refine ⟨?_, ?_, ?_, ?_, ?_, ?_⟩
  · rw [houtputs]
    exact hchar.2.1 List.nodup_nil
  · intro k
    rw [houtputs, hchar.2.2.1 k]
    simp only [List.map_nil, List.not_mem_nil, false_or]
    constructor
    · rintro ⟨p, hp, hkey⟩
      exact ⟨p.2, by
        have : p.2 ∈ pages.enum.map Prod.snd := List.mem_map_of_mem Prod.snd hp
        rwa [List.enum_map_snd] at this, hkey⟩
    · rintro ⟨m, hm, hkey⟩
      obtain ⟨j, hj⟩ := List.get_of_mem hm
      refine ⟨(j.1, m), ?_, hkey⟩
      rw [List.mk_mem_enum_iff_getElem?]
      rw [List.getElem?_eq_getElem j.2]
      rw [← hj]
      simp [List.get_eq_getElem]
  · intro k is hmem
    rw [houtputs] at hmem
    have hfind := gfind_of_mem_nodup k is _ (hchar.2.1 List.nodup_nil) hmem
    have := hchar.2.2.2.1 k
    rw [hfind] at this
    simpa [gfind] using this
  · rw [hskip, hchar.1]
    exact henum_filter (fun m => decide (pageKey m = none))
  · rw [hskip, houtputs, hchar.1, hchar.2.2.2.2.1]
    simp only [List.map_nil, List.sum_nil, Nat.zero_add]
    rw [henum_filter (fun m => decide (pageKey m = none)),
      henum_filter (fun m => (pageKey m).isSome)]
    have := List.length_eq_length_filter_add
      (l := pages) (f := fun m => decide (pageKey m = none))
    have hcompl : (pages.filter (fun m => !decide (pageKey m = none))).length =
        (pages.filter (fun m => (pageKey m).isSome)).length := by
      congr 1
      apply List.filter_congr
      intro m _
      cases pageKey m <;> simp
    unfold split_pdf_by_meta
    simp only
    omega
  · intro inv ts nm hall
    rw [houtputs] at hall
    unfold split_apply
    rw [houtputs]
    exact foldl_fsWrite_lookup ts nm pages _ inv hall

theorem split_by_meta_spec_witness :
    (((split_pdf_by_meta [(some "X", some "M", some "red"),
        (none, some "M", some "r"),
        (some "X", some "M", some "red")]).outputs.map Prod.fst).Nodup) ∧
    ((("X", "M", "red") ∈ (split_pdf_by_meta [(some "X", some "M", some "red"),
        (none, some "M", some "r"),
        (some "X", some "M", some "red")]).outputs.map Prod.fst)) ∧
    ((split_pdf_by_meta [(some "X", some "M", some "red"),
        (none, some "M", some "r"),
        (some "X", some "M", some "red")]).skipped_without_meta = 1) ∧
    (lookupFs (split_apply [("src.pdf", [(none, none, none)])]
        [(some "X", some "M", some "red"), (none, some "M", some "r"),
         (some "X", some "M", some "red")] "T") "src.pdf" =
      some [(none, none, none)]) := by
  have h := split_by_meta_spec [(some "X", some "M", some "red"),
    (none, some "M", some "r"), (some "X", some "M", some "red")]
  refine ⟨h.1, ?_, ?_, ?_⟩
  · rw [h.2.1]
    exact ⟨(some "X", some "M", some "red"), by decide, by decide⟩
  · rw [h.2.2.2.1]
    decide
  · rw [h.2.2.2.2.2 [("src.pdf", [(none, none, none)])] "T" "src.pdf"
      (by decide)]
    decide

-- ---------- C7 ----------

theorem find_blank (article size : String) (dir : List PdfDoc)
    (h : stripAllWs article.data = [] ∨ trimChars size.data = []) :
    find_pdf_by_article_size article size dir = none := by
  unfold find_pdf_by_article_size
  rcases h with h | h <;> simp [h]

theorem buildLoop_frame :
    ∀ (rows : List Row) (dir : List PdfDoc) (reg : Registry)
      (sh : List (String × String × Int)) (parts : List (List String)),
      buildLoop rows dir reg sh parts =
        (sh ++ (buildLoop rows dir reg [] []).1,
         parts ++ (buildLoop rows dir reg [] []).2.1,
         (buildLoop rows dir reg [] []).2.2.1,
         (buildLoop rows dir reg [] []).2.2.2) := by
  intro rows
  induction rows with
  | nil => intro dir reg sh parts; simp [buildLoop]
  | cons row rest ih =>
    intro dir reg sh parts
    rw [buildLoop, buildLoop]
    cases hq : row.qty with
    | none => exact ih dir reg sh parts
    | some q =>
      simp only []
      by_cases hq0 : q ≤ 0
      · rw [if_pos hq0, if_pos hq0]
        exact ih dir reg sh parts
      · rw [if_neg hq0, if_neg hq0]
        cases hf : find_pdf_by_article_size (trimS row.article) (trimS row.size) dir with
        | none =>
          rw [ih dir reg (sh ++ [(trimS row.article, trimS row.size, q)]) parts,
            ih dir reg ([] ++ [(trimS row.article, trimS row.size, q)]) []]
          simp [List.append_assoc]
        | some name =>
          cases hl : dirLookup dir name with
          | none =>
            simp only [hl]
            rw [ih dir reg (sh ++ [(trimS row.article, trimS row.size, q)]) parts,
              ih dir reg ([] ++ [(trimS row.article, trimS row.size, q)]) []]
            simp [List.append_assoc]
          | some doc =>
            simp only [hl, List.nil_append]
            have hsh2 :
                (if 0 < (cut_first_n_pages_unique reg doc.pages q.toNat).shortage then
                  sh ++ [(trimS row.article, trimS row.size,
                    ((cut_first_n_pages_unique reg doc.pages q.toNat).shortage : Int))]
                else sh) =
                sh ++ (if 0 < (cut_first_n_pages_unique reg doc.pages q.toNat).shortage then
                  [(trimS row.article, trimS row.size,
                    ((cut_first_n_pages_unique reg doc.pages q.toNat).shortage : Int))]
                else []) := by
              by_cases h :
                  0 < (cut_first_n_pages_unique reg doc.pages q.toNat).shortage <;>
                simp [h]
            have hparts2 :
                (match (cut_first_n_pages_unique reg doc.pages q.toNat).head with
                  | some hd => if 0 < hd.length then
                      parts ++ [hd.map (fun p => p.2)] else parts
                  | none => parts) =
                parts ++ (match (cut_first_n_pages_unique reg doc.pages q.toNat).head with
                  | some hd => if 0 < hd.length then [hd.map (fun p => p.2)] else []
                  | none => []) := by
              cases (cut_first_n_pages_unique reg doc.pages q.toNat).head with
              | none => simp
              | some hd =>
                by_cases h : 0 < hd.length <;> simp [h]
            rw [hsh2, hparts2]
            rw [ih _ _ (sh ++ (if 0 < (cut_first_n_pages_unique reg doc.pages q.toNat).shortage then
                  [(trimS row.article, trimS row.size,
                    ((cut_first_n_pages_unique reg doc.pages q.toNat).shortage : Int))]
                else []))
              (parts ++ (match (cut_first_n_pages_unique reg doc.pages q.toNat).head with
                  | some hd => if 0 < hd.length then [hd.map (fun p => p.2)] else []
                  | none => []))]
            rw [ih _ _ (if 0 < (cut_first_n_pages_unique reg doc.pages q.toNat).shortage then
                  [(trimS row.article, trimS row.size,
                    ((cut_first_n_pages_unique reg doc.pages q.toNat).shortage : Int))]
                else [])
              (match (cut_first_n_pages_unique reg doc.pages q.toNat).head with
                  | some hd => if 0 < hd.length then [hd.map (fun p => p.2)] else []
                  | none => [])]
            simp [List.append_assoc]

/-- Claim C7, counterexample: a row with a blank article, size `42` and
quantity 3 is not skipped silently — the orchestrator records a
full-quota shortage record for it. -/
theorem build_blank_article_not_silent_cex :
    (build_pdf_from_dataframe [⟨"", "42", some 3⟩] [] []).shortages =
      [("", "42", 3)] := by
  decide

/-- Claim C7, amended: rows whose quantity fails integer conversion or
is non-positive are skipped silently (no consumption, no shortage
record, no other effect); rows with a blank article or size after
trimming likewise consume nothing, but they are not silent — the
document search yields no candidate, and a full-quota shortage record
(article, size, quantity) is appended for the line. -/
theorem build_row_field_validation (row : Row) (rest : List Row)
    (dir : List PdfDoc) (reg : Registry) :
    ((row.qty = none ∨ ∃ q, row.qty = some q ∧ q ≤ 0) →
      build_pdf_from_dataframe (row :: rest) dir reg =
        build_pdf_from_dataframe rest dir reg) ∧
    (∀ q : Int, row.qty = some q → 0 < q →
      (trimChars row.article.data = [] ∨ trimChars row.size.data = []) →
      build_pdf_from_dataframe (row :: rest) dir reg =
        { build_pdf_from_dataframe rest dir reg with
            shortages := (trimS row.article, trimS row.size, q) ::
              (build_pdf_from_dataframe rest dir reg).shortages }) := by
  constructor
  · intro h
    unfold build_pdf_from_dataframe
    rw [buildLoop]
    rcases h with h | ⟨q, hq, hq0⟩
    · rw [h]
    · rw [hq]
      simp only []
      rw [if_pos hq0]
  · intro q hq hq0 hblank
    have hfind : find_pdf_by_article_size (trimS row.article) (trimS row.size)
        dir = none := by
      apply find_blank
      rcases hblank with h | h
      · left
        show stripAllWs (trimChars row.article.data) = []
        rw [h]
        rfl
      · right
        show trimChars (trimChars row.size.data) = []
        rw [h]
        rfl
    unfold build_pdf_from_dataframe
    rw [buildLoop, hq]
    simp only []
    rw [if_neg (by omega : ¬ q ≤ 0), hfind]
    rw [buildLoop_frame rest dir reg ([] ++ [(trimS row.article, trimS row.size, q)]) []]
    simp

theorem build_row_field_validation_witness :
    (build_pdf_from_dataframe [⟨"x", "42", none⟩] [] [] =
      build_pdf_from_dataframe [] [] []) ∧
    (build_pdf_from_dataframe [⟨" ", "42", some 3⟩] [] [] =
      { build_pdf_from_dataframe [] [] [] with
          shortages := ("", "42", 3) ::
            (build_pdf_from_dataframe [] [] []).shortages }) := by
  refine ⟨(build_row_field_validation ⟨"x", "42", none⟩ [] [] []).1
    (Or.inl rfl), ?_⟩
  have h := (build_row_field_validation ⟨" ", "42", some 3⟩ [] [] []).2
    3 rfl (by omega) (Or.inl (by decide))
  rw [h]
  rfl

-- ---------- C5 ----------

theorem mem_updateDirAfterCut (dir : List PdfDoc) (name : String)
    (r : CutOutcome) (d : PdfDoc) (hd : d ∈ dir) (hne : d.name ≠ name) :
    d ∈ updateDirAfterCut dir name r := by
  unfold updateDirAfterCut
  by_cases hdel : r.srcDeleted
  · rw [if_pos hdel]
    rw [List.mem_filter]
    exact ⟨hd, by simpa using hne⟩
  · rw [if_neg hdel]
    rw [List.mem_map]
    exact ⟨d, hd, by rw [if_neg hne]⟩

/-- Claim C5, counterexample: with inventory `[a.pdf, b.pdf]`, both
matching article `abc` and size `42`, `a.pdf` holding one fresh page and
`b.pdf` two, the ordered line (abc, 42, qty 2) is fulfilled by the
source orchestrator from the FIRST match only: it records shortage 1
even though the later candidate `b.pdf` matches and has fresh pages —
while the spec's all-candidates orchestrator would end with shortage 0. -/
theorem build_ignores_later_candidates_cex :
    find_pdf_by_article_size "abc" "42" [invDocA, invDocB] = some "a.pdf" ∧
    docMatch (stripAllWs "abc".data) (trimChars "42".data) invDocB = true ∧
    (build_pdf_from_dataframe [⟨"abc", "42", some 2⟩]
      [invDocA, invDocB] []).shortages = [("abc", "42", 1)] ∧
    specFulfillLine [] [invDocA, invDocB] "abc" "42" 2 = 0 := by
  decide

/-- Claim C5, amended: for an order line with a positive quantity, the
orchestrator consults `find_pdf_by_article_size`, which returns only the
FIRST matching document in directory-listing order; the consumption
engine runs once on that document with the full requested quantity, that
single run's shortage becomes the line's shortage record, and every
other document — matching candidates included — is left untouched. -/
theorem build_uses_first_match_only (dir : List PdfDoc) (reg : Registry)
    (article size : String) (q : Int) (name : String) (doc : PdfDoc)
    (hq : 0 < q)
    (hfind : find_pdf_by_article_size (trimS article) (trimS size) dir =
      some name)
    (hdoc : dirLookup dir name = some doc) :
    (build_pdf_from_dataframe [⟨article, size, some q⟩] dir reg).shortages =
      (if 0 < (cut_first_n_pages_unique reg doc.pages q.toNat).shortage then
        [(trimS article, trimS size,
          ((cut_first_n_pages_unique reg doc.pages q.toNat).shortage : Int))]
      else []) ∧
    (build_pdf_from_dataframe [⟨article, size, some q⟩] dir reg).artifact =
      (if bundleCount (cut_first_n_pages_unique reg doc.pages q.toNat) ≠ 0 then
        some (bundleTexts (cut_first_n_pages_unique reg doc.pages q.toNat))
      else none) ∧
    (build_pdf_from_dataframe [⟨article, size, some q⟩] dir reg).reg =
      (cut_first_n_pages_unique reg doc.pages q.toNat).reg ∧
    (build_pdf_from_dataframe [⟨article, size, some q⟩] dir reg).dir =
      updateDirAfterCut dir name (cut_first_n_pages_unique reg doc.pages q.toNat) ∧
    (∀ d ∈ dir, d.name ≠ name →
      d ∈ (build_pdf_from_dataframe [⟨article, size, some q⟩] dir reg).dir) := by
  unfold build_pdf_from_dataframe
  rw [buildLoop]
  simp only []
  rw [if_neg (by omega : ¬ q ≤ 0), hfind]
  simp only []
  rw [hdoc]
  simp only []
  set r := cut_first_n_pages_unique reg doc.pages q.toNat with hr
  refine ⟨?_, ?_, ?_, ?_, ?_⟩
  · by_cases hsh : 0 < r.shortage
    · simp only [buildLoop, if_pos hsh]
      simp
    · simp only [buildLoop, if_neg hsh]
  · cases hhead : r.head with
    | none => simp [buildLoop, bundleCount, hhead]
    | some hd =>
      by_cases hlen : 0 < hd.length
      · simp only [buildLoop, hhead, bundleCount, bundleTexts, Option.getD_some]
        rw [if_pos hlen]
        rw [if_neg (by simp : ¬ ([] ++ [hd.map (fun p => p.2)] :
          List (List String)).isEmpty = true)]
        rw [if_pos (by omega : hd.length ≠ 0)]
        simp
      · simp only [buildLoop, hhead, bundleCount, bundleTexts, Option.getD_some]
        rw [if_neg hlen]
        rw [if_neg (by omega : ¬ hd.length ≠ 0)]
        rfl
  · simp [buildLoop]
  · simp [buildLoop]
  · intro d hdm hne
    simp only [buildLoop]
    exact mem_updateDirAfterCut dir name r d hdm hne

theorem build_uses_first_match_only_witness :
    (build_pdf_from_dataframe [⟨"abc", "42", some 2⟩]
      [invDocA, invDocB] []).shortages = [("abc", "42", 1)] ∧
    invDocB ∈ (build_pdf_from_dataframe [⟨"abc", "42", some 2⟩]
      [invDocA, invDocB] []).dir := by
  have h := build_uses_first_match_only [invDocA, invDocB] []
    "abc" "42" 2 "a.pdf" invDocA (by omega) (by decide) (by decide)
  exact ⟨h.1.trans (by decide), h.2.2.2.2 invDocB (by decide) (by decide)⟩
